import Mathlib

set_option maxRecDepth 100000
set_option maxHeartbeats 1000000

/-!
Verification of the AIEOS canonical-identity-signing core (src/crypto.ts /
src/evm.ts): RFC 8785-style canonical JSON serialization (`canonicalize`),
the profile reducer (`buildSignInput`), and the Ed25519 sign/verify wrappers
(`signProfile`, `verifyProfile`).

JSON-like values are embedded as a mutual inductive family (`Json`, `JArr`,
`JObj`) so that all operations are structurally recursive and evaluate by
kernel reduction.  JavaScript objects carry insertion-ordered, duplicate-free
string keys; `JObj` is the insertion-ordered entry list.  Numbers are modelled
as integers (the source's docstring: "Sufficient for AIEOS profiles (strings,
integers, booleans, objects, arrays)").  Buffers are `List Nat` whose entries
are bytes (< 256) wherever the source's `Buffer` type enforces it.

The Ed25519 primitive itself (node:crypto) is not part of this repository; it
enters the model as an abstract `SigScheme` record, and theorems that depend
on cryptographic behaviour take the relevant assumptions (`SigOk`, `SigLenOk`)
as hypotheses, instantiated on concrete executable schemes for witnesses.
-/

mutual

/-- JSON-like value, as consumed by `canonicalize` (source lines 245-256).
Mutual with `JArr`/`JObj` so recursion over it is structural. -/
inductive Json where
  | null
  | bool (b : Bool)
  | num (n : Int)
  | str (s : String)
  | arr (xs : JArr)
  | obj (kvs : JObj)
deriving DecidableEq

/-- A JSON array: an ordered sequence of values. -/
inductive JArr where
  | nil
  | cons (hd : Json) (tl : JArr)
deriving DecidableEq

/-- A JSON object: insertion-ordered list of key/value entries.  JavaScript
objects never hold two entries with the same key; theorems that depend on
this carry an explicit `Nodup` hypothesis on the key list. -/
inductive JObj where
  | nil
  | cons (k : String) (v : Json) (tl : JObj)
deriving DecidableEq

end

/-- The entries of a `JArr` as a `List`. -/
def JArr.toList : JArr → List Json
  | .nil => []
  | .cons x xs => x :: JArr.toList xs

/-- The entries of a `JObj` as a `List`. -/
def JObj.toList : JObj → List (String × Json)
  | .nil => []
  | .cons k v kvs => (k, v) :: JObj.toList kvs

/-- Build a `JObj` from an entry list. -/
def JObj.ofList : List (String × Json) → JObj
  | [] => .nil
  | kv :: kvs => .cons kv.1 kv.2 (JObj.ofList kvs)

/-- The UTF-16 code units of one character: a single unit below U+10000,
else the surrogate pair. -/
def utf16Units (c : Char) : List Nat :=
  if c.toNat < 65536 then [c.toNat]
  else [55296 + (c.toNat - 65536) / 1024, 56320 + (c.toNat - 65536) % 1024]

/-- The UTF-16 code-unit sequence of a string — the representation on which
JavaScript compares strings. -/
def utf16Of (s : String) : List Nat := s.data.flatMap utf16Units

/-- Strict lexicographic order on code-unit sequences. -/
def unitsLt : List Nat → List Nat → Bool
  | _, [] => false
  | [], _ :: _ => true
  | a :: as, b :: bs =>
    if a < b then true
    else if b < a then false
    else unitsLt as bs

/-- The strict string order used by JavaScript's default
`Array.prototype.sort` on object keys (`Object.keys(data).sort()`):
lexicographic comparison of UTF-16 code units.  This differs from
code-point order when a supplementary-plane character (whose high
surrogate lies in [U+D800, U+DBFF]) meets a character in [U+E000, U+FFFF]. -/
def strLt (a b : String) : Bool := unitsLt (utf16Of a) (utf16Of b)

/-- Modelled from the spec's words: "ascending lexicographic (code-point)
order of key".  Used only to state where the source's UTF-16 code-unit sort
deviates from the spec's claimed order; `canonicalize` itself uses `strLt`. -/
def codePointLt (a b : String) : Bool :=
  unitsLt (a.data.map Char.toNat) (b.data.map Char.toNat)

/-- Key order used to sort object entries before serialization:
entry `p` precedes entry `q` when `q`'s key is not strictly below `p`'s. -/
def entryLe (p q : String × String) : Prop := strLt q.1 p.1 = false

/-- Same key order on unserialized entries (used to state sortedness of the
canonical output and to define `normalizeJson`). -/
def entryLeJ (p q : String × Json) : Prop := strLt q.1 p.1 = false

instance : DecidableRel entryLe := fun _ _ => instDecidableEqBool _ _

instance : DecidableRel entryLeJ := fun _ _ => instDecidableEqBool _ _

/-- Four lowercase hex digits of `n % 65536`, for `\\u00XX` escapes. -/
def hexDigitChar (n : Nat) : Char :=
  if n < 10 then Char.ofNat (48 + n) else Char.ofNat (87 + n)

/-- JSON string-character escaping as performed by `JSON.stringify`:
quote and backslash are escaped, the named control escapes are used for
backspace, tab, newline, form feed and carriage return, all other control
characters get a `\\u00XX` escape, and everything else is passed through. -/
def escapeChar (c : Char) : List Char :=
  if c = '"' then ['\\', '"']
  else if c = '\\' then ['\\', '\\']
  else if c.toNat = 8 then ['\\', 'b']
  else if c.toNat = 9 then ['\\', 't']
  else if c.toNat = 10 then ['\\', 'n']
  else if c.toNat = 12 then ['\\', 'f']
  else if c.toNat = 13 then ['\\', 'r']
  else if c.toNat < 32 then
    ['\\', 'u', '0', '0', hexDigitChar (c.toNat / 16), hexDigitChar (c.toNat % 16)]
  else [c]

/-- `JSON.stringify` on a string: double quotes around the escaped body. -/
def jsonQuote (s : String) : String :=
  String.mk ('"' :: (s.data.flatMap escapeChar ++ ['"']))

/-- Render one serialized object entry as `"key":value`
(`JSON.stringify(k) + ':' + canonicalize(data[k])` in the source). -/
def renderEntry (p : String × String) : String :=
  jsonQuote p.1 ++ ":" ++ p.2

mutual

/-- Minimal RFC 8785 (JCS) canonical JSON serialization, translated from
`canonicalize` (source lines 245-256): primitives serialize via JSON literal
rules, arrays preserve element order, and object entries are serialized in
ascending key order (`Object.keys(data).sort()`).  Since JavaScript object
keys are unique, sorting the keys and looking each one up is the same as
sorting the entry list by key, which is what is done here (stably, after
recursing on the values). -/
def canonicalize : Json → String
  | .null => "null"
  | .bool true => "true"
  | .bool false => "false"
  | .num n => toString n
  | .str s => jsonQuote s
  | .arr xs => "[" ++ String.intercalate "," (canonElems xs) ++ "]"
  | .obj kvs =>
    "\x7b" ++
      String.intercalate ","
        ((List.insertionSort entryLe (canonPairs kvs)).map renderEntry) ++
    "\x7d"

/-- Recursive serialization of array elements (`data.map(canonicalize)`). -/
def canonElems : JArr → List String
  | .nil => []
  | .cons x xs => canonicalize x :: canonElems xs

/-- Recursive serialization of object entry values, keeping the keys. -/
def canonPairs : JObj → List (String × String)
  | .nil => []
  | .cons k v kvs => (k, canonicalize v) :: canonPairs kvs

end

/-- Value of a single hex digit character, or `none`. -/
def hexVal (c : Char) : Option Nat :=
  if 48 ≤ c.toNat ∧ c.toNat ≤ 57 then some (c.toNat - 48)
  else if 97 ≤ c.toNat ∧ c.toNat ≤ 102 then some (c.toNat - 87)
  else if 65 ≤ c.toNat ∧ c.toNat ≤ 70 then some (c.toNat - 55)
  else none

/-- Hex decoding with Node.js `Buffer.from(s, 'hex')` semantics: characters
are consumed in pairs; decoding stops silently at the first pair that is not
two hex digits (including a lone trailing digit), yielding a possibly
truncated byte string rather than an error. -/
def hexDecodeChars : List Char → List Nat
  | c1 :: c2 :: rest =>
    match hexVal c1, hexVal c2 with
    | some hi, some lo => (16 * hi + lo) :: hexDecodeChars rest
    | _, _ => []
  | _ => []

/-- `Buffer.from(s, 'hex')` on a string. -/
def hexDecodeStr (s : String) : List Nat := hexDecodeChars s.data

/-- Lowercase hex rendering of a byte list (`buf.toString('hex')`). -/
def bytesToHexChars : List Nat → List Char
  | [] => []
  | b :: bs => hexDigitChar (b / 16 % 16) :: hexDigitChar (b % 16) :: bytesToHexChars bs

/-- Lowercase hex string of a byte list. -/
def bytesToHex (bs : List Nat) : String := String.mk (bytesToHexChars bs)

/-- First value bound to `key`, as JavaScript property lookup on a
duplicate-free object. -/
def JObj.lookup : JObj → String → Option Json
  | .nil, _ => none
  | .cons k v kvs, key => if k = key then some v else JObj.lookup kvs key

/-- JavaScript property assignment `o[key] = val`: overwrite the existing
entry in place, else append a new entry. -/
def JObj.setKey : JObj → String → Json → JObj
  | .nil, key, val => .cons key val .nil
  | .cons k v kvs, key, val =>
    if k = key then .cons key val kvs else .cons k v (JObj.setKey kvs key val)

/-- JavaScript truthiness of an optional property value: `undefined`, `null`,
`false`, `0` and the empty string are falsy; everything else is truthy. -/
def truthy : Option Json → Bool
  | none => false
  | some .null => false
  | some (.bool b) => b
  | some (.num n) => decide (n ≠ 0)
  | some (.str s) => decide (s ≠ "")
  | some (.arr _) => true
  | some (.obj _) => true

/-- The value `meta?.public_key ?? ''` read during the reduction (source line
237): the original `metadata.public_key` if `metadata` is an object carrying
a non-null `public_key`, else the empty string.  Property access on a
non-object `metadata` yields `undefined`, collapsed to `''` by `??`. -/
def metaPublicKey (profile : JObj) : Json :=
  match profile.lookup "metadata" with
  | some (.obj meta) =>
    match meta.lookup "public_key" with
    | some .null => .str ""
    | some v => v
    | none => .str ""
  | _ => .str ""

/-- The profile reducer `buildSignInput` (source lines 234-239): replace
`metadata` by an object holding only `public_key` and canonicalize.  The
source performs the replacement on a deep copy
(`JSON.parse(JSON.stringify(profile))`) and mutates only the copy; in this
value-level embedding the copy is the identity, and the mutation-freedom of
the original is proved separately on the heap-level embedding
`buildSignInputHeap` below. -/
def buildSignInput (profile : JObj) : String :=
  canonicalize (.obj (profile.setKey "metadata"
    (.obj (.cons "public_key" (metaPublicKey profile) .nil))))

/-- Interface of the Ed25519 primitive used by the source (node:crypto):
derive a raw 32-byte public key from a raw 32-byte seed, sign a message with
a seed, verify a signature against a message and a raw public key.  The
source moves between raw keys and DER containers by splicing fixed headers;
that conversion is invertible, so the model works directly on raw keys. -/
structure SigScheme where
  derivePub : List Nat → List Nat
  sign : String → List Nat → List Nat
  verify : String → List Nat → List Nat → Bool

/-- Raw keypair as produced by `generateKeypair` (source lines 153-168):
both keys hex-encoded, the private key being the 32-byte seed. -/
structure Keypair where
  publicKey : String
  privateKey : String
deriving DecidableEq

/-- `generateKeypair` (source lines 153-168), with the OS randomness made
explicit: the freshly generated 32-byte seed is a parameter, the DER headers
produced by `generateKeyPairSync` are stripped to raw key material, and both
raw keys are returned as lowercase hex. -/
def generateKeypair (S : SigScheme) (seed : List Nat) : Keypair :=
  { publicKey := bytesToHex (S.derivePub seed)
    privateKey := bytesToHex seed }

/-- `signProfile` (source lines 179-196): canonical signing input via
`buildSignInput`, hex-decode of the private key, hard failure unless the
decoded seed is exactly 32 bytes, then an Ed25519 signature over the
canonical bytes, hex-encoded.  The thrown `Error` is modelled as `.error`
with the source's message. -/
def signProfile (S : SigScheme) (profile : JObj) (privateKeyHex : String) :
    Except String String :=
  let canonical := buildSignInput profile
  let seed := hexDecodeStr privateKeyHex
  if seed.length ≠ 32 then
    .error "privateKey must be 64 hex chars (32-byte seed)"
  else
    .ok (bytesToHex (S.sign canonical seed))

/-- The byte coercion `Buffer.from` applies to each entry of an array or
array-like argument: `ToUint8(ToNumber(entry))`.  Exact for numbers
(integer modulo 256, negatives wrapping), booleans (1/0), null (0), absent
entries (`undefined` is NaN, hence 0), digit-only and empty strings, and
plain objects (their primitive form `"[object Object]"` is NaN, hence 0).
Other strings and nested arrays go through the full JS numeric-string
grammar, modelled here as the NaN outcome 0; no theorem in this file
depends on those entries. -/
def entryByte : Json → Nat
  | .num n => (n % 256).toNat
  | .bool true => 1
  | .bool false => 0
  | .null => 0
  | .str s =>
    if s.data.all Char.isDigit then
      (s.data.foldl (fun acc c => acc * 10 + (c.toNat - 48)) 0) % 256
    else 0
  | .arr _ => 0
  | .obj _ => 0

/-- `Buffer.from(value, 'hex')` on a JSON value, `none` modelling a thrown
`TypeError`/`RangeError` (caught by `verifyProfile`): a string hex-decodes
with truncation; an array's entries become the buffer's bytes (the encoding
argument is ignored); an object with a numeric non-negative `length` is
treated as array-like, with a non-number `length` yielding an empty buffer
and a negative one throwing; objects without `length`, null, numbers and
booleans throw.  Allocation limits (`kMaxLength`) are not modelled: a
too-long array-like makes Node throw and this model return an over-long
buffer, and both make `verifyProfile` return `false` via its length check. -/
def bufferFromValue (v : Json) : Option (List Nat) :=
  match v with
  | .str s => some (hexDecodeStr s)
  | .arr xs => some (xs.toList.map entryByte)
  | .obj kvs =>
    match kvs.lookup "length" with
    | some (.num len) =>
      if len < 0 then none
      else some ((List.range len.toNat).map fun i =>
        match kvs.lookup (toString i) with
        | some e => entryByte e
        | none => 0)
    | some _ => some []
    | none => none
  | _ => none

/-- `verifyProfile` (source lines 202-227): read `signature` and `public_key`
from `profile.metadata`, returning `false` when either is missing or falsy;
recompute the canonical signing input; rebuild the public key from its
`Buffer.from` bytes and check the signature.  Every internal failure is
caught and collapsed to `false`: a non-object `metadata` gives `undefined`
fields, a `Buffer.from`-rejected value throws, and a decoded public key that
is not exactly 32 bytes makes the spliced SPKI DER invalid, so
`createPublicKey` throws; all of these are the `false` branches below. -/
def verifyProfile (S : SigScheme) (profile : JObj) : Bool :=
  match profile.lookup "metadata" with
  | some (.obj meta) =>
    if truthy (meta.lookup "signature") = false ∨
       truthy (meta.lookup "public_key") = false then false
    else
      match meta.lookup "public_key", meta.lookup "signature" with
      | some pkV, some sigV =>
        match bufferFromValue pkV, bufferFromValue sigV with
        | some rawPubKey, some sigBytes =>
          if rawPubKey.length = 32 then
            S.verify (buildSignInput profile) rawPubKey sigBytes
          else false
        | _, _ => false
      | _, _ => false
  | _ => false

/-- Fixed-width three-byte big-endian encoding of one character's code point
(code points are below 2^21, so three bytes suffice). -/
def charBytes (c : Char) : List Nat :=
  [c.toNat / 65536, c.toNat / 256 % 256, c.toNat % 256]

/-- Injective byte encoding of a string, used by the stand-in schemes. -/
def strBytes (s : String) : List Nat := s.data.flatMap charBytes

/-- Inverse of the three-byte encoding, witnessing its injectivity. -/
def decode3 : List Nat → List Nat
  | a :: b :: c :: rest => (a * 65536 + b * 256 + c) :: decode3 rest
  | _ => []

/-- Executable stand-in for the Ed25519 primitive, used to instantiate
witnesses: the public key is the seed itself, and a signature is a tagged
copy of the seed and the message bytes, so verification is equality. -/
def toyScheme : SigScheme where
  derivePub seed := seed
  sign msg seed := 0 :: (seed ++ strBytes msg)
  verify msg pub sig := decide (sig = 0 :: (pub ++ strBytes msg))

/-- The unique 64-byte signature of `toyScheme64` for a message and key. -/
def sig64 (msg : String) (pub : List Nat) : List Nat :=
  (pub ++ strBytes msg ++ List.replicate 64 0).take 64

/-- Executable stand-in whose signatures are exactly 64 bytes and whose
verifier rejects every other length, mirroring node:crypto's Ed25519
signature-size behaviour. -/
def toyScheme64 : SigScheme where
  derivePub seed := seed
  sign msg seed := sig64 msg seed
  verify msg pub sig := decide (sig = sig64 msg pub)

/-- Assumptions on the signature primitive used by the positive claims:
raw public keys derived from 32-byte seeds are 32 bytes, key and signature
material is made of bytes, signatures are nonempty, honestly produced
signatures verify (completeness), and a signature produced for one message
never verifies against a different message (ideal unforgeability; for real
Ed25519 this holds up to negligible probability). -/
structure SigOk (S : SigScheme) : Prop where
  pub_len : ∀ seed, seed.length = 32 → (S.derivePub seed).length = 32
  pub_bytes : ∀ seed, (∀ b ∈ seed, b < 256) → ∀ b ∈ S.derivePub seed, b < 256
  sign_bytes : ∀ msg seed, (∀ b ∈ seed, b < 256) → ∀ b ∈ S.sign msg seed, b < 256
  sign_ne : ∀ msg seed, S.sign msg seed ≠ []
  complete : ∀ msg seed, S.verify msg (S.derivePub seed) (S.sign msg seed) = true
  tamper : ∀ msg1 msg2 seed, msg1 ≠ msg2 →
    S.verify msg2 (S.derivePub seed) (S.sign msg1 seed) = false

/-- A verifier that rejects signatures that are not exactly 64 bytes, as
node:crypto's Ed25519 verification does. -/
def SigLenOk (S : SigScheme) : Prop :=
  ∀ msg pub sig, sig.length ≠ 64 → S.verify msg pub sig = false

/-- Build a `JArr` from a list of values. -/
def jarrOfList : List Json → JArr
  | [] => .nil
  | j :: js => .cons j (jarrOfList js)

mutual

/-- Recursively sort every object's entry list by key.  Two JSON values are
structurally equal up to object key order (array order significant) exactly
when their normal forms coincide. -/
def normalizeJson : Json → Json
  | .null => .null
  | .bool b => .bool b
  | .num n => .num n
  | .str s => .str s
  | .arr xs => .arr (normArr xs)
  | .obj kvs => .obj (JObj.ofList (List.insertionSort entryLeJ (normObj kvs)))

/-- Normalize each element of an array. -/
def normArr : JArr → JArr
  | .nil => .nil
  | .cons x xs => .cons (normalizeJson x) (normArr xs)

/-- Normalize each value of an object's entries, as a list. -/
def normObj : JObj → List (String × Json)
  | .nil => []
  | .cons k v kvs => (k, normalizeJson v) :: normObj kvs

end

/-- Heap cell for the mutation-level model of `buildSignInput`: a JavaScript
value is a primitive, or an array/object holding references (addresses). -/
inductive HVal where
  | prim (j : Json)
  | harr (elems : List Nat)
  | hobj (fields : List (String × Nat))
deriving DecidableEq

/-- A JavaScript heap: cells addressed by their position. -/
abbrev Store := List HVal

/-- Read the JSON values at a list of addresses.  Fuel-bounded so that the
recursion is structural (hence kernel-reducible); `JSON.stringify` diverges
on cyclic structures, modelled here by fuel exhaustion returning `none`. -/
def readMany (s : Store) : Nat → List Nat → Option (List Json)
  | _, [] => some []
  | 0, _ :: _ => none
  | fuel+1, a :: as =>
    match s[a]? with
    | some (.prim j) =>
      match readMany s fuel as with
      | some rest => some (j :: rest)
      | none => none
    | some (.harr es) =>
      match readMany s fuel es, readMany s fuel as with
      | some js, some rest => some (.arr (jarrOfList js) :: rest)
      | _, _ => none
    | some (.hobj fs) =>
      match readMany s fuel (fs.map Prod.snd), readMany s fuel as with
      | some js, some rest =>
        some (.obj (JObj.ofList (List.zip (fs.map Prod.fst) js)) :: rest)
      | _, _ => none
    | none => none

/-- The JSON value of the structure rooted at address `a`. -/
def readValue (s : Store) (fuel a : Nat) : Option Json :=
  match readMany s fuel [a] with
  | some [j] => some j
  | _ => none

/-- Field lookup in an object cell's field list. -/
def lookupAddr : List (String × Nat) → String → Option Nat
  | [], _ => none
  | f :: fs, key => if f.1 = key then some f.2 else lookupAddr fs key

/-- Overwrite-or-append on an object cell's field list. -/
def setAddrEntries : List (String × Nat) → String → Nat → List (String × Nat)
  | [], key, a => [(key, a)]
  | f :: fs, key, a => if f.1 = key then (key, a) :: fs else f :: setAddrEntries fs key a

/-- Mutating field assignment `o[key] = v` on the heap: replace the field
list of the object cell at `a` in place; no-op on non-object cells. -/
def setField (s : Store) (a : Nat) (key : String) (v : Nat) : Store :=
  match s[a]? with
  | some (.hobj fs) => s.set a (.hobj (setAddrEntries fs key v))
  | _ => s

/-- Copy the structures reachable from a list of addresses of `src` onto the
end of `out`, returning the extended store and the fresh root addresses.
This is the heap effect of `JSON.parse(JSON.stringify(...))`: an entirely
fresh object graph is allocated, no cell of the source graph is reused.
Fuel-bounded structurally, like `readMany`. -/
def copyMany (src : Store) : Nat → List Nat → Store → Option (Store × List Nat)
  | _, [], out => some (out, [])
  | 0, _ :: _, _ => none
  | fuel+1, a :: as, out =>
    match src[a]? with
    | some (.prim j) =>
      match copyMany src fuel as (out ++ [.prim j]) with
      | some (out2, as2) => some (out2, out.length :: as2)
      | none => none
    | some (.harr es) =>
      match copyMany src fuel es out with
      | some (out1, es2) =>
        match copyMany src fuel as (out1 ++ [.harr es2]) with
        | some (out2, as2) => some (out2, out1.length :: as2)
        | none => none
      | none => none
    | some (.hobj fs) =>
      match copyMany src fuel (fs.map Prod.snd) out with
      | some (out1, vs2) =>
        match copyMany src fuel as (out1 ++ [.hobj (List.zip (fs.map Prod.fst) vs2)]) with
        | some (out2, as2) => some (out2, out1.length :: as2)
        | none => none
      | none => none
    | none => none

/-- `JSON.parse(JSON.stringify(...))` of the structure at `a`: the copy is
appended to the same heap and its fresh root address returned. -/
def deepCopy (s : Store) (fuel a : Nat) : Option (Store × Nat) :=
  match copyMany s fuel [a] s with
  | some (out, [a2]) => some (out, a2)
  | _ => none

/-- The address holding `copy.metadata.public_key`, when the copy and its
`metadata` are objects carrying the fields. -/
def pkAddrOf (s1 : Store) (copyA : Nat) : Option Nat :=
  match s1[copyA]? with
  | some (.hobj fs) =>
    match lookupAddr fs "metadata" with
    | some ma =>
      match s1[ma]? with
      | some (.hobj mfs) => lookupAddr mfs "public_key"
      | _ => none
    | none => none
  | _ => none

/-- The value cell for the new metadata's `public_key` entry
(`meta?.public_key ?? ''`): the existing cell when present and non-null,
else a freshly appended empty-string cell. -/
def pkStep (s1 : Store) (copyA : Nat) : Store × Nat :=
  match pkAddrOf s1 copyA with
  | some pa =>
    match s1[pa]? with
    | some (.prim .null) => (s1 ++ [.prim (.str "")], s1.length)
    | _ => (s1, pa)
  | none => (s1 ++ [.prim (.str "")], s1.length)

/-- Allocate the fresh `{ public_key }` metadata object and assign it into
the copy (`copy.metadata = { public_key: ... }`). -/
def installMeta (s1 : Store) (copyA : Nat) : Store :=
  setField ((pkStep s1 copyA).1 ++ [.hobj [("public_key", (pkStep s1 copyA).2)]])
    copyA "metadata" (pkStep s1 copyA).1.length

/-- Heap-level embedding of `buildSignInput` (source lines 234-239), making
the mutation explicit: deep-copy the profile, read
`copy.metadata?.public_key ?? ''` off the copy, allocate the fresh one-field
metadata object, assign it into the copy (`copy.metadata = ...`), and
canonicalize the value of the mutated copy.  The caller's profile is the
cell graph reachable from `profileAddr` in `s`. -/
def buildSignInputHeap (s : Store) (fuel profileAddr : Nat) : Option (Store × String) :=
  match deepCopy s fuel profileAddr with
  | none => none
  | some (s1, copyA) =>
    match readValue (installMeta s1 copyA) fuel copyA with
    | some j => some (installMeta s1 copyA, canonicalize j)
    | none => none

/-- Serialize an entry's value, keeping the key (the elementwise action of
`canonPairs`). -/
def sndCanon (p : String × Json) : String × String := (p.1, canonicalize p.2)

/-- Strict key order on object entries, used to state that the canonical
serialization lists entries in strictly ascending key order. -/
def entryLtJ (p q : String × Json) : Prop := strLt p.1 q.1 = true

/-- Thirty-two bytes of witness randomness. -/
def seedOnes : List Nat := List.replicate 32 1

/-- Witness keypair produced by `generateKeypair` on the stand-in scheme. -/
def kp1 : Keypair := generateKeypair toyScheme seedOnes

/-- A profile whose `metadata` object does not yet carry a `public_key`. -/
def c1base : JObj := .cons "metadata" (.obj .nil) .nil

/-- Signature obtained by following claim C1's procedure literally: sign the
profile first, before the public key has been written into it. -/
def c1sigHex : String :=
  match signProfile toyScheme c1base kp1.privateKey with
  | .ok s => s
  | .error e => e

/-- Claim C1's final profile: signature and public key both written into
`metadata` only after signing. -/
def c1claimProfile : JObj :=
  c1base.setKey "metadata"
    (.obj ((JObj.nil.setKey "signature" (.str c1sigHex)).setKey "public_key"
      (.str kp1.publicKey)))

/-- Unsigned witness profile already carrying its public key. -/
def c2meta0 : JObj := .cons "public_key" (.str kp1.publicKey) .nil

/-- Witness profile before signing. -/
def c2pre : JObj := .cons "identity" (.str "X") (.cons "metadata" (.obj c2meta0) .nil)

/-- Valid signature over the witness profile's canonical signing input. -/
def c2sigHex : String := bytesToHex (toyScheme.sign (buildSignInput c2pre) seedOnes)

/-- Signed metadata carrying an extra server-assigned `alias` field. -/
def c2metaFull : JObj :=
  .cons "public_key" (.str kp1.publicKey)
    (.cons "signature" (.str c2sigHex) (.cons "alias" (.str "x") .nil))

/-- Fully signed witness profile. -/
def c2signed : JObj :=
  .cons "identity" (.str "X") (.cons "metadata" (.obj c2metaFull) .nil)

/-- The signed profile with `metadata.alias` mutated after signing. -/
def c2aliasMut : JObj :=
  .cons "identity" (.str "X")
    (.cons "metadata" (.obj (.cons "public_key" (.str kp1.publicKey)
      (.cons "signature" (.str c2sigHex) (.cons "alias" (.str "y") .nil)))) .nil)

/-- The signed profile with the top-level `identity` field mutated. -/
def c2identMut : JObj :=
  .cons "identity" (.str "Y") (.cons "metadata" (.obj c2metaFull) .nil)

/-- Base profile shared by the claim C3 instances. -/
def c3base : JObj := .cons "identity" (.str "X") .nil

/-- Metadata with a valid signature. -/
def c3m1 : JObj :=
  .cons "public_key" (.str kp1.publicKey) (.cons "signature" (.str c2sigHex) .nil)

/-- The same metadata except for `signature`, here empty. -/
def c3m2 : JObj :=
  .cons "public_key" (.str kp1.publicKey) (.cons "signature" (.str "") .nil)

/-- Profile used to compute claim C4's canonical signing input. -/
def c4base : JObj :=
  .cons "metadata" (.obj (.cons "public_key" (.str kp1.publicKey) .nil)) .nil

/-- A signature string that is not hex: a full valid 128-hex-char signature
followed by two non-hex characters. -/
def c4sigBad : String := bytesToHex (sig64 (buildSignInput c4base) seedOnes) ++ "zz"

/-- Claim C4's profile, carrying the non-hex signature string. -/
def c4profile : JObj :=
  .cons "metadata" (.obj (.cons "public_key" (.str kp1.publicKey)
    (.cons "signature" (.str c4sigBad) .nil))) .nil

/-- Witness object for claim C5 (insertion order not ascending). -/
def c5kvs : JObj :=
  .cons "b" (.num 2) (.cons "a" (.num 1) (.cons "c" (.str "z") .nil))

/-- Witness value with a reordered nested object. -/
def c6a : Json :=
  .obj (.cons "x" (.obj (.cons "b" (.num 2) (.cons "a" (.num 1) .nil))) .nil)

/-- The same value with the nested object's keys in the other order. -/
def c6b : Json :=
  .obj (.cons "x" (.obj (.cons "a" (.num 1) (.cons "b" (.num 2) .nil))) .nil)

/-- Witness heap: a profile object at address 3 with a nested metadata
object at address 1 and a further top-level field at address 2. -/
def c7store : Store :=
  [.prim (.str "pk"), .hobj [("public_key", 0)], .prim (.str "v"),
   .hobj [("metadata", 1), ("x", 2)]]

/-- The JSON value of the witness heap's profile. -/
def c7json : Json :=
  .obj (.cons "metadata" (.obj (.cons "public_key" (.str "pk") .nil))
    (.cons "x" (.str "v") .nil))

/-- Result of running the heap-level reducer on the witness heap. -/
def c7run : Option (Store × String) := buildSignInputHeap c7store 12 3

/-- The store after the heap-level reducer ran. -/
def c7out : Store :=
  match c7run with
  | some p => p.1
  | none => []

/-- The canonical signing input computed by the heap-level reducer. -/
def c7canon : String :=
  match c7run with
  | some p => p.2
  | none => ""

/-- A 62-character hex string: decodes to 31 bytes, one short of a seed. -/
def c8priv : String := bytesToHex (List.replicate 31 1)

/-- Profile whose signature is present but empty (falsy). -/
def c9profile : JObj :=
  .cons "metadata" (.obj (.cons "public_key" (.str "aa")
    (.cons "signature" (.str "") .nil))) .nil

/-- Profile with no `metadata` field at all. -/
def c10profile : JObj := .cons "identity" (.str "X") .nil

theorem charToNat_inj {a b : Char} (h : a.toNat = b.toNat) : a = b := by
  apply Char.ext
  unfold Char.toNat at h
  exact UInt32.toNat.inj h

theorem charToNat_valid (c : Char) :
    c.toNat < 55296 ∨ (57344 ≤ c.toNat ∧ c.toNat < 1114112) := by
  have := c.valid
  unfold UInt32.isValidChar Nat.isValidChar at this
  unfold Char.toNat
  rcases this with h | ⟨h1, h2⟩ <;> omega

theorem unitsLt_antisymm : ∀ {a b : List Nat},
    unitsLt a b = false → unitsLt b a = false → a = b := by
  intro a
  induction a with
  | nil =>
    intro b h1 h2
    cases b with
    | nil => rfl
    | cons y ys => simp [unitsLt] at h1
  | cons x xs ih =>
    intro b h1 h2
    cases b with
    | nil => simp [unitsLt] at h2
    | cons y ys =>
      simp only [unitsLt] at h1 h2
      by_cases hxy : x < y
      · rw [if_pos hxy] at h1
        exact absurd h1 (by simp)
      · by_cases hyx : y < x
        · rw [if_pos hyx] at h2
          exact absurd h2 (by simp)
        · rw [if_neg hxy, if_neg hyx] at h1
          rw [if_neg hyx, if_neg hxy] at h2
          have hx : x = y := by omega
          rw [hx, ih h1 h2]

theorem unitsLt_asymm : ∀ {a b : List Nat}, unitsLt a b = true → unitsLt b a = false := by
  intro a
  induction a with
  | nil =>
    intro b h
    cases b with
    | nil => exact absurd h (by simp [unitsLt])
    | cons y ys => rfl
  | cons x xs ih =>
    intro b h
    cases b with
    | nil => simp [unitsLt] at h
    | cons y ys =>
      simp only [unitsLt] at h ⊢
      by_cases hxy : x < y
      · rw [if_neg (show ¬ y < x by omega), if_pos hxy]
      · by_cases hyx : y < x
        · rw [if_neg hxy, if_pos hyx] at h
          exact absurd h (by simp)
        · rw [if_neg hxy, if_neg hyx] at h
          rw [if_neg hyx, if_neg hxy]
          exact ih h

theorem unitsLt_nlt_trans : ∀ {c a b : List Nat},
    unitsLt b a = false → unitsLt c b = false → unitsLt c a = false := by
  intro c
  induction c with
  | nil =>
    intro a b h1 h2
    cases a with
    | nil => rfl
    | cons x xs =>
      cases b with
      | nil => simp [unitsLt] at h1
      | cons y ys => simp [unitsLt] at h2
  | cons z zs ih =>
    intro a b h1 h2
    cases a with
    | nil => rfl
    | cons x xs =>
      cases b with
      | nil => simp [unitsLt] at h1
      | cons y ys =>
        simp only [unitsLt] at h1 h2 ⊢
        by_cases hyx : y < x
        · rw [if_pos hyx] at h1
          exact absurd h1 (by simp)
        · by_cases hzy : z < y
          · rw [if_pos hzy] at h2
            exact absurd h2 (by simp)
          · rw [if_neg hyx] at h1
            rw [if_neg hzy] at h2
            by_cases hzx : z < x
            · omega
            · rw [if_neg hzx]
              by_cases hxz : x < z
              · rw [if_pos hxz]
              · rw [if_neg hxz]
                rw [if_neg (show ¬ x < y by omega)] at h1
                rw [if_neg (show ¬ y < z by omega)] at h2
                exact ih h1 h2

theorem utf16Of_inj : ∀ {cs1 cs2 : List Char},
    cs1.flatMap utf16Units = cs2.flatMap utf16Units → cs1 = cs2 := by
  intro cs1
  induction cs1 with
  | nil =>
    intro cs2 h
    cases cs2 with
    | nil => rfl
    | cons c2 r2 =>
      exfalso
      have h2 : ([] : List Nat) = utf16Units c2 ++ r2.flatMap utf16Units := h
      by_cases hb : c2.toNat < 65536
      · rw [utf16Units, if_pos hb] at h2
        simp at h2
      · rw [utf16Units, if_neg hb] at h2
        simp at h2
  | cons c1 r1 ih =>
    intro cs2 h
    cases cs2 with
    | nil =>
      exfalso
      have h2 : utf16Units c1 ++ r1.flatMap utf16Units = ([] : List Nat) := h
      by_cases hb : c1.toNat < 65536
      · rw [utf16Units, if_pos hb] at h2
        simp at h2
      · rw [utf16Units, if_neg hb] at h2
        simp at h2
    | cons c2 r2 =>
      have h2 : utf16Units c1 ++ r1.flatMap utf16Units =
          utf16Units c2 ++ r2.flatMap utf16Units := h
      by_cases hb1 : c1.toNat < 65536 <;> by_cases hb2 : c2.toNat < 65536
      · rw [utf16Units, if_pos hb1, utf16Units, if_pos hb2] at h2
        simp only [List.singleton_append, List.cons.injEq] at h2
        obtain ⟨hx, hr⟩ := h2
        rw [charToNat_inj hx, ih hr]
      · exfalso
        rw [utf16Units, if_pos hb1, utf16Units, if_neg hb2] at h2
        simp only [List.singleton_append, List.cons_append, List.nil_append,
          List.cons.injEq] at h2
        obtain ⟨hx, _⟩ := h2
        have hv := charToNat_valid c1
        have hlt := charToNat_valid c2
        omega
      · exfalso
        rw [utf16Units, if_neg hb1, utf16Units, if_pos hb2] at h2
        simp only [List.singleton_append, List.cons_append, List.nil_append,
          List.cons.injEq] at h2
        obtain ⟨hx, _⟩ := h2
        have hv := charToNat_valid c2
        have hlt := charToNat_valid c1
        omega
      · rw [utf16Units, if_neg hb1, utf16Units, if_neg hb2] at h2
        simp only [List.cons_append, List.nil_append, List.cons.injEq] at h2
        obtain ⟨hhi, hlo, hr⟩ := h2
        have heq : c1.toNat = c2.toNat := by omega
        rw [charToNat_inj heq, ih hr]

theorem strLt_antisymm {a b : String} (h1 : strLt a b = false) (h2 : strLt b a = false) :
    a = b :=
  String.ext (utf16Of_inj (unitsLt_antisymm h1 h2))

instance : IsTrans (String × String) entryLe :=
  ⟨fun _ _ _ h1 h2 => unitsLt_nlt_trans h1 h2⟩

instance : IsTotal (String × String) entryLe := by
  refine ⟨fun p q => ?_⟩
  cases hb : unitsLt (utf16Of q.1) (utf16Of p.1) with
  | false => exact Or.inl hb
  | true => exact Or.inr (unitsLt_asymm hb)

instance : IsTrans (String × Json) entryLeJ :=
  ⟨fun _ _ _ h1 h2 => unitsLt_nlt_trans h1 h2⟩

instance : IsTotal (String × Json) entryLeJ := by
  refine ⟨fun p q => ?_⟩
  cases hb : unitsLt (utf16Of q.1) (utf16Of p.1) with
  | false => exact Or.inl hb
  | true => exact Or.inr (unitsLt_asymm hb)

instance : IsAntisymm (String × Json) entryLtJ := by
  refine ⟨fun p q h1 h2 => ?_⟩
  exact absurd h2 (by
    rw [show (entryLtJ q p) = (unitsLt (utf16Of q.1) (utf16Of p.1) = true) from rfl,
      unitsLt_asymm h1]
    simp)

theorem JObj.lookup_setKey_self : ∀ (m : JObj) (k : String) (v : Json),
    (m.setKey k v).lookup k = some v
  | .nil, k, v => by simp [JObj.setKey, JObj.lookup]
  | .cons k2 v2 rest, k, v => by
    by_cases h : k2 = k
    · simp [JObj.setKey, h, JObj.lookup]
    · simp [JObj.setKey, h, JObj.lookup, JObj.lookup_setKey_self rest k v]

theorem JObj.lookup_setKey_ne : ∀ (m : JObj) (k key : String) (v : Json), key ≠ k →
    (m.setKey k v).lookup key = m.lookup key
  | .nil, k, key, v, h => by simp [JObj.setKey, JObj.lookup, Ne.symm h]
  | .cons k2 v2 rest, k, key, v, h => by
    by_cases h2 : k2 = k
    · subst h2
      simp [JObj.setKey, JObj.lookup, Ne.symm h]
    · simp only [JObj.setKey, if_neg h2, JObj.lookup,
        JObj.lookup_setKey_ne rest k key v h]

theorem JObj.setKey_setKey : ∀ (m : JObj) (k : String) (a b : Json),
    (m.setKey k a).setKey k b = m.setKey k b
  | .nil, k, a, b => by simp [JObj.setKey]
  | .cons k2 v2 rest, k, a, b => by
    by_cases h : k2 = k
    · simp [JObj.setKey, h]
    · simp [JObj.setKey, h, JObj.setKey_setKey rest k a b]

theorem hexVal_hexDigitChar {n : Nat} (h : n < 16) : hexVal (hexDigitChar n) = some n := by
  interval_cases n <;> decide

theorem hexDecodeStr_bytesToHex (bs : List Nat) (h : ∀ b ∈ bs, b < 256) :
    hexDecodeStr (bytesToHex bs) = bs := by
  induction bs with
  | nil => rfl
  | cons b rest ih =>
    have hb : b < 256 := h b (by simp)
    have ih2 : hexDecodeChars (bytesToHexChars rest) = rest :=
      ih (fun x hx => h x (List.mem_cons_of_mem _ hx))
    show hexDecodeChars (bytesToHexChars (b :: rest)) = b :: rest
    simp only [bytesToHexChars, hexDecodeChars,
      hexVal_hexDigitChar (show b / 16 % 16 < 16 by omega),
      hexVal_hexDigitChar (show b % 16 < 16 by omega)]
    rw [ih2, show 16 * (b / 16 % 16) + b % 16 = b by omega]

theorem bytesToHex_ne (bs : List Nat) (h : bs ≠ []) : bytesToHex bs ≠ "" := by
  cases bs with
  | nil => exact absurd rfl h
  | cons b rest =>
    intro he
    have h2 := congrArg String.data he
    exact absurd h2 (by simp [bytesToHex, bytesToHexChars])

theorem decode3_flatMap (cs : List Char) :
    decode3 (cs.flatMap charBytes) = cs.map Char.toNat := by
  induction cs with
  | nil => rfl
  | cons c rest ih =>
    have hsplit : (c :: rest).flatMap charBytes =
        c.toNat / 65536 :: (c.toNat / 256 % 256 :: (c.toNat % 256 :: rest.flatMap charBytes)) :=
      rfl
    rw [hsplit]
    show (c.toNat / 65536 * 65536 + c.toNat / 256 % 256 * 256 + c.toNat % 256) ::
        decode3 (rest.flatMap charBytes) = c.toNat :: rest.map Char.toNat
    rw [ih, show c.toNat / 65536 * 65536 + c.toNat / 256 % 256 * 256 + c.toNat % 256 = c.toNat
      by omega]

theorem strBytes_inj {s t : String} (h : strBytes s = strBytes t) : s = t := by
  have h2 := congrArg decode3 h
  rw [strBytes, strBytes, decode3_flatMap, decode3_flatMap] at h2
  exact String.ext (List.map_injective_iff.mpr (fun a b hab => charToNat_inj hab) h2)

theorem charToNat_lt (c : Char) : c.toNat < 1114112 := by
  have := c.valid
  unfold UInt32.isValidChar Nat.isValidChar at this
  rcases this with h | ⟨h1, h2⟩ <;> unfold Char.toNat <;> omega

theorem strBytes_lt (s : String) : ∀ b ∈ strBytes s, b < 256 := by
  intro b hb
  rw [strBytes] at hb
  rcases List.mem_flatMap.mp hb with ⟨c, _, hc⟩
  have := charToNat_lt c
  simp only [charBytes, List.mem_cons, List.not_mem_nil, or_false] at hc
  rcases hc with rfl | rfl | rfl <;> omega

theorem toySigOk : SigOk toyScheme := by
  refine ⟨fun seed h => h, fun seed h => h, ?_, ?_, ?_, ?_⟩
  · intro msg seed h b hb
    have hb2 : b ∈ 0 :: (seed ++ strBytes msg) := hb
    rcases List.mem_cons.mp hb2 with rfl | hmem
    · omega
    · rcases List.mem_append.mp hmem with hs | hsb
      · exact h b hs
      · exact strBytes_lt msg b hsb
  · intro msg seed
    show 0 :: (seed ++ strBytes msg) ≠ []
    simp
  · intro msg seed
    show decide (0 :: (seed ++ strBytes msg) = 0 :: (seed ++ strBytes msg)) = true
    simp
  · intro m1 m2 seed hne
    show decide (0 :: (seed ++ strBytes m1) = 0 :: (seed ++ strBytes m2)) = false
    apply decide_eq_false
    intro heq
    apply hne
    apply strBytes_inj
    have h2 : seed ++ strBytes m1 = seed ++ strBytes m2 := by
      injection heq
    exact List.append_cancel_left h2

theorem sig64_length (msg : String) (pub : List Nat) : (sig64 msg pub).length = 64 := by
  rw [sig64, List.length_take]
  simp only [List.length_append, List.length_replicate]
  omega

theorem toy64SigLen : SigLenOk toyScheme64 := by
  intro msg pub sig h
  show decide (sig = sig64 msg pub) = false
  apply decide_eq_false
  intro heq
  apply h
  rw [heq, sig64_length]

theorem JObj.toList_ofList : ∀ L : List (String × Json), (JObj.ofList L).toList = L
  | [] => rfl
  | p :: rest => by simp [JObj.ofList, JObj.toList, JObj.toList_ofList rest]

theorem canonPairs_eq_toList : ∀ kvs : JObj, canonPairs kvs = kvs.toList.map sndCanon
  | .nil => rfl
  | .cons k v rest => by
    simp [canonPairs, JObj.toList, sndCanon, canonPairs_eq_toList rest]

theorem canonPairs_ofList (L : List (String × Json)) :
    canonPairs (JObj.ofList L) = L.map sndCanon := by
  rw [canonPairs_eq_toList, JObj.toList_ofList]

theorem orderedInsert_sndCanon (a : String × Json) (l : List (String × Json)) :
    (List.orderedInsert entryLeJ a l).map sndCanon =
      List.orderedInsert entryLe (sndCanon a) (l.map sndCanon) := by
  induction l with
  | nil => rfl
  | cons b rest ih =>
    by_cases h : entryLeJ a b
    · simp only [List.orderedInsert, List.map_cons, if_pos h,
        if_pos (show entryLe (sndCanon a) (sndCanon b) from h)]
    · simp only [List.orderedInsert, List.map_cons, if_neg h,
        if_neg (show ¬ entryLe (sndCanon a) (sndCanon b) from h), ih]

theorem insertionSort_sndCanon (l : List (String × Json)) :
    (List.insertionSort entryLeJ l).map sndCanon =
      List.insertionSort entryLe (l.map sndCanon) := by
  induction l with
  | nil => rfl
  | cons a rest ih =>
    rw [List.insertionSort, List.map_cons, List.insertionSort, ← ih, orderedInsert_sndCanon]

theorem canonicalize_obj_eq (kvs : JObj) :
    canonicalize (.obj kvs) = "\x7b" ++ String.intercalate ","
      ((List.insertionSort entryLeJ kvs.toList).map
        (fun kv => jsonQuote kv.1 ++ ":" ++ canonicalize kv.2)) ++ "\x7d" := by
  show "\x7b" ++ String.intercalate ","
      ((List.insertionSort entryLe (canonPairs kvs)).map renderEntry) ++ "\x7d" = _
  rw [canonPairs_eq_toList, ← insertionSort_sndCanon, List.map_map]
  rfl

mutual

theorem canon_normalize : ∀ v : Json, canonicalize (normalizeJson v) = canonicalize v
  | .null => rfl
  | .bool b => by cases b <;> rfl
  | .num _ => rfl
  | .str _ => rfl
  | .arr xs => by
    show "[" ++ String.intercalate "," (canonElems (normArr xs)) ++ "]" =
      "[" ++ String.intercalate "," (canonElems xs) ++ "]"
    rw [canonElems_normArr xs]
  | .obj kvs => by
    show "\x7b" ++ String.intercalate ","
        ((List.insertionSort entryLe
          (canonPairs (JObj.ofList (List.insertionSort entryLeJ (normObj kvs))))).map
            renderEntry) ++ "\x7d" =
      "\x7b" ++ String.intercalate ","
        ((List.insertionSort entryLe (canonPairs kvs)).map renderEntry) ++ "\x7d"
    rw [canonPairs_ofList, insertionSort_sndCanon,
      List.Sorted.insertionSort_eq
        (List.sorted_insertionSort entryLe ((normObj kvs).map sndCanon)),
      normObj_map_sndCanon kvs]

theorem canonElems_normArr : ∀ xs : JArr, canonElems (normArr xs) = canonElems xs
  | .nil => rfl
  | .cons x xs => by
    show canonicalize (normalizeJson x) :: canonElems (normArr xs) =
      canonicalize x :: canonElems xs
    rw [canon_normalize x, canonElems_normArr xs]

theorem normObj_map_sndCanon : ∀ kvs : JObj, (normObj kvs).map sndCanon = canonPairs kvs
  | .nil => rfl
  | .cons k v kvs => by
    show (k, canonicalize (normalizeJson v)) :: (normObj kvs).map sndCanon =
      (k, canonicalize v) :: canonPairs kvs
    rw [canon_normalize v, normObj_map_sndCanon kvs]

end

theorem verifyProfile_eq_of_meta (S : SigScheme) (profile meta : JObj)
    (hmeta : profile.lookup "metadata" = some (.obj meta)) :
    verifyProfile S profile =
      if truthy (meta.lookup "signature") = false ∨
         truthy (meta.lookup "public_key") = false then false
      else
        match meta.lookup "public_key", meta.lookup "signature" with
        | some pkV, some sigV =>
          match bufferFromValue pkV, bufferFromValue sigV with
          | some rawPubKey, some sigBytes =>
            if rawPubKey.length = 32 then
              S.verify (buildSignInput profile) rawPubKey sigBytes
            else false
          | _, _ => false
        | _, _ => false := by
  unfold verifyProfile
  rw [hmeta]

theorem verifyProfile_nonobj (S : SigScheme) (profile : JObj)
    (h : ∀ meta : JObj, profile.lookup "metadata" ≠ some (.obj meta)) :
    verifyProfile S profile = false := by
  unfold verifyProfile
  split
  · next meta heq => exact absurd heq (h meta)
  · rfl

theorem verifyProfile_falseGate (S : SigScheme) (profile meta : JObj)
    (hmeta : profile.lookup "metadata" = some (.obj meta))
    (h : truthy (meta.lookup "signature") = false ∨
         truthy (meta.lookup "public_key") = false) :
    verifyProfile S profile = false := by
  rw [verifyProfile_eq_of_meta S profile meta hmeta, if_pos h]

theorem verifyProfile_pos (S : SigScheme) (profile meta : JObj) (pk sig : String)
    (hmeta : profile.lookup "metadata" = some (.obj meta))
    (hpk : meta.lookup "public_key" = some (.str pk))
    (hsig : meta.lookup "signature" = some (.str sig))
    (hpkt : pk ≠ "") (hsigt : sig ≠ "") :
    verifyProfile S profile =
      if (hexDecodeStr pk).length = 32 then
        S.verify (buildSignInput profile) (hexDecodeStr pk) (hexDecodeStr sig)
      else false := by
  rw [verifyProfile_eq_of_meta S profile meta hmeta, hpk, hsig]
  have h1 : truthy (some (.str sig)) = true := by simp [truthy, hsigt]
  have h2 : truthy (some (.str pk)) = true := by simp [truthy, hpkt]
  rw [if_neg (by simp [h1, h2])]
  rfl

theorem metaPublicKey_setMeta (p : JObj) (m : JObj) :
    metaPublicKey (p.setKey "metadata" (.obj m)) =
      (match m.lookup "public_key" with
        | some .null => .str ""
        | some v => v
        | none => .str "") := by
  unfold metaPublicKey
  rw [JObj.lookup_setKey_self]

theorem buildSignInput_eq_setMeta (p : JObj) (m1 m2 : JObj)
    (hpk : m1.lookup "public_key" = m2.lookup "public_key") :
    buildSignInput (p.setKey "metadata" (.obj m1)) =
      buildSignInput (p.setKey "metadata" (.obj m2)) := by
  unfold buildSignInput
  rw [JObj.setKey_setKey, JObj.setKey_setKey, metaPublicKey_setMeta, metaPublicKey_setMeta,
    hpk]

theorem buildSignInput_update (profile meta m2 : JObj)
    (hmeta : profile.lookup "metadata" = some (.obj meta))
    (hpk : m2.lookup "public_key" = meta.lookup "public_key") :
    buildSignInput (profile.setKey "metadata" (.obj m2)) = buildSignInput profile := by
  unfold buildSignInput
  rw [JObj.setKey_setKey]
  have hmpk : metaPublicKey (profile.setKey "metadata" (.obj m2)) = metaPublicKey profile := by
    unfold metaPublicKey
    rw [JObj.lookup_setKey_self, hmeta]
    show (match m2.lookup "public_key" with
          | some .null => Json.str ""
          | some v => v
          | none => .str "") =
        (match meta.lookup "public_key" with
          | some .null => Json.str ""
          | some v => v
          | none => .str "")
    rw [hpk]
  rw [hmpk]

theorem copyMany_extends (src : Store) : ∀ (fuel : Nat) (as : List Nat) (out out2 : Store)
    (as2 : List Nat), copyMany src fuel as out = some (out2, as2) →
    (∃ ext, out2 = out ++ ext) ∧ ∀ b ∈ as2, out.length ≤ b := by
  intro fuel
  induction fuel with
  | zero =>
    intro as out out2 as2 h
    cases as with
    | nil =>
      have h2 : some (out, ([] : List Nat)) = some (out2, as2) := h
      simp only [Option.some.injEq, Prod.mk.injEq] at h2
      obtain ⟨rfl, rfl⟩ := h2
      exact ⟨⟨[], by simp⟩, by simp⟩
    | cons a as =>
      have h2 : (none : Option (Store × List Nat)) = some (out2, as2) := h
      exact Option.noConfusion h2
  | succ fuel ih =>
    intro as out out2 as2 h
    cases as with
    | nil =>
      have h2 : some (out, ([] : List Nat)) = some (out2, as2) := h
      simp only [Option.some.injEq, Prod.mk.injEq] at h2
      obtain ⟨rfl, rfl⟩ := h2
      exact ⟨⟨[], by simp⟩, by simp⟩
    | cons a as =>
      simp only [copyMany] at h
      split at h
      · next j heq =>
        split at h
        · next o l heq2 =>
          simp only [Option.some.injEq, Prod.mk.injEq] at h
          obtain ⟨⟨ext, hexteq⟩, hb⟩ := ih as (out ++ [.prim j]) o l heq2
          obtain ⟨rfl, rfl⟩ := h
          refine ⟨⟨.prim j :: ext, by rw [hexteq]; simp⟩, ?_⟩
          intro b hbmem
          rcases List.mem_cons.mp hbmem with rfl | hmem
          · exact Nat.le_refl _
          · have := hb b hmem
            simp only [List.length_append, List.length_cons, List.length_nil] at this
            omega
        · next heq2 => exact Option.noConfusion h
      · next es heq =>
        split at h
        · next o1 l1 heq2 =>
          split at h
          · next o2 l2 heq3 =>
            simp only [Option.some.injEq, Prod.mk.injEq] at h
            obtain ⟨⟨ext1, hext1⟩, _⟩ := ih es out o1 l1 heq2
            obtain ⟨⟨ext2, hext2⟩, hb2⟩ := ih as (o1 ++ [.harr l1]) o2 l2 heq3
            obtain ⟨rfl, rfl⟩ := h
            refine ⟨⟨ext1 ++ [.harr l1] ++ ext2, by rw [hext2, hext1]; simp⟩, ?_⟩
            intro b hbmem
            rcases List.mem_cons.mp hbmem with rfl | hmem
            · rw [hext1]; simp
            · have := hb2 b hmem
              rw [hext1] at this
              simp only [List.length_append, List.length_cons, List.length_nil] at this
              omega
          · next heq3 => exact Option.noConfusion h
        · next heq2 => exact Option.noConfusion h
      · next fs heq =>
        split at h
        · next o1 l1 heq2 =>
          split at h
          · next o2 l2 heq3 =>
            simp only [Option.some.injEq, Prod.mk.injEq] at h
            obtain ⟨⟨ext1, hext1⟩, _⟩ := ih (fs.map Prod.snd) out o1 l1 heq2
            obtain ⟨⟨ext2, hext2⟩, hb2⟩ :=
              ih as (o1 ++ [.hobj (List.zip (fs.map Prod.fst) l1)]) o2 l2 heq3
            obtain ⟨rfl, rfl⟩ := h
            refine ⟨⟨ext1 ++ [.hobj (List.zip (fs.map Prod.fst) l1)] ++ ext2,
              by rw [hext2, hext1]; simp⟩, ?_⟩
            intro b hbmem
            rcases List.mem_cons.mp hbmem with rfl | hmem
            · rw [hext1]; simp
            · have := hb2 b hmem
              rw [hext1] at this
              simp only [List.length_append, List.length_cons, List.length_nil] at this
              omega
          · next heq3 => exact Option.noConfusion h
        · next heq2 => exact Option.noConfusion h
      · next heq => exact Option.noConfusion h

theorem readMany_agree (s s2 : Store) (hagree : ∀ i, i < s.length → s2[i]? = s[i]?) :
    ∀ (fuel : Nat) (as : List Nat) (js : List Json),
      readMany s fuel as = some js → readMany s2 fuel as = some js := by
  intro fuel
  induction fuel with
  | zero =>
    intro as js h
    cases as with
    | nil => exact h
    | cons a as =>
      have h2 : (none : Option (List Json)) = some js := h
      exact Option.noConfusion h2
  | succ fuel ih =>
    intro as js h
    cases as with
    | nil => exact h
    | cons a as =>
      simp only [readMany] at h ⊢
      cases hsrc : s[a]? with
      | none => rw [hsrc] at h; exact Option.noConfusion h
      | some hv =>
        have ha : a < s.length := (List.getElem?_eq_some.mp hsrc).1
        rw [hsrc] at h
        rw [hagree a ha, hsrc]
        cases hv with
        | prim j =>
          cases hrest : readMany s fuel as with
          | none => rw [hrest] at h; exact Option.noConfusion h
          | some rest =>
            rw [hrest] at h
            rw [ih as rest hrest]
            exact h
        | harr es =>
          have h2 : (match readMany s fuel es, readMany s fuel as with
            | some js1, some rest => some (Json.arr (jarrOfList js1) :: rest)
            | _, _ => none) = some js := h
          show (match readMany s2 fuel es, readMany s2 fuel as with
            | some js1, some rest => some (Json.arr (jarrOfList js1) :: rest)
            | _, _ => none) = some js
          cases helems : readMany s fuel es with
          | none => rw [helems] at h2; exact Option.noConfusion h2
          | some js1 =>
            cases hrest : readMany s fuel as with
            | none => rw [helems, hrest] at h2; exact Option.noConfusion h2
            | some rest =>
              rw [helems, hrest] at h2
              rw [ih es js1 helems, ih as rest hrest]
              exact h2
        | hobj fs =>
          have h2 : (match readMany s fuel (fs.map Prod.snd), readMany s fuel as with
            | some js1, some rest =>
              some (Json.obj (JObj.ofList ((fs.map Prod.fst).zip js1)) :: rest)
            | _, _ => none) = some js := h
          show (match readMany s2 fuel (fs.map Prod.snd), readMany s2 fuel as with
            | some js1, some rest =>
              some (Json.obj (JObj.ofList ((fs.map Prod.fst).zip js1)) :: rest)
            | _, _ => none) = some js
          cases helems : readMany s fuel (fs.map Prod.snd) with
          | none => rw [helems] at h2; exact Option.noConfusion h2
          | some js1 =>
            cases hrest : readMany s fuel as with
            | none => rw [helems, hrest] at h2; exact Option.noConfusion h2
            | some rest =>
              rw [helems, hrest] at h2
              rw [ih (fs.map Prod.snd) js1 helems, ih as rest hrest]
              exact h2

theorem readValue_agree (s s2 : Store) (hagree : ∀ i, i < s.length → s2[i]? = s[i]?)
    (fuel a : Nat) (j : Json) (h : readValue s fuel a = some j) :
    readValue s2 fuel a = some j := by
  unfold readValue at h ⊢
  cases hrm : readMany s fuel [a] with
  | none =>
    rw [hrm] at h
    exact Option.noConfusion h
  | some js =>
    rw [hrm] at h
    rw [readMany_agree s s2 hagree fuel [a] js hrm]
    exact h

theorem deepCopy_spec (s : Store) (fuel a : Nat) (s1 : Store) (copyA : Nat)
    (h : deepCopy s fuel a = some (s1, copyA)) :
    (∃ ext, s1 = s ++ ext) ∧ s.length ≤ copyA := by
  unfold deepCopy at h
  cases hcm : copyMany s fuel [a] s with
  | none =>
    rw [hcm] at h
    exact Option.noConfusion h
  | some pr =>
    obtain ⟨out, roots⟩ := pr
    rw [hcm] at h
    obtain ⟨hex, hb⟩ := copyMany_extends s fuel [a] s out roots hcm
    cases roots with
    | nil => exact Option.noConfusion h
    | cons a2 rest =>
      cases rest with
      | nil =>
        have h2 : some (out, a2) = some (s1, copyA) := h
        simp only [Option.some.injEq, Prod.mk.injEq] at h2
        obtain ⟨rfl, rfl⟩ := h2
        exact ⟨hex, hb a2 (by simp)⟩
      | cons b rest2 => exact Option.noConfusion h

theorem installMeta_agree (s s1 : Store) (copyA : Nat) (ext : Store)
    (hext : s1 = s ++ ext) (hcopyA : s.length ≤ copyA) :
    ∀ i, i < s.length → (installMeta s1 copyA)[i]? = s[i]? := by
  intro i hi
  have happ : ∀ t : Store, (s ++ t)[i]? = s[i]? := fun t => List.getElem?_append_left hi
  have hstep : ∃ e, (pkStep s1 copyA).1 = s1 ++ e := by
    unfold pkStep
    split
    · split
      · exact ⟨[.prim (.str "")], rfl⟩
      · exact ⟨[], by simp⟩
    · exact ⟨[.prim (.str "")], rfl⟩
  obtain ⟨e, he⟩ := hstep
  unfold installMeta setField
  split
  · next fs heq =>
    rw [List.getElem?_set_ne (by omega : copyA ≠ i), he, hext]
    simp only [List.append_assoc]
    exact happ _
  · rw [he, hext]
    simp only [List.append_assoc]
    exact happ _

theorem signProfile_ok (S : SigScheme) (profile : JObj) (priv : String)
    (h : (hexDecodeStr priv).length = 32) :
    signProfile S profile priv =
      .ok (bytesToHex (S.sign (buildSignInput profile) (hexDecodeStr priv))) := by
  show (if (hexDecodeStr priv).length ≠ 32 then
      Except.error "privateKey must be 64 hex chars (32-byte seed)"
    else Except.ok (bytesToHex (S.sign (buildSignInput profile) (hexDecodeStr priv)))) = _
  rw [if_neg (by omega)]

theorem sortedEntries_spec (L : List (String × Json)) (hnd : (L.map Prod.fst).Nodup) :
    (List.insertionSort entryLeJ L).Perm L ∧
      (List.insertionSort entryLeJ L).Pairwise entryLtJ := by
  refine ⟨List.perm_insertionSort entryLeJ L, ?_⟩
  have hsorted : (List.insertionSort entryLeJ L).Pairwise entryLeJ :=
    List.sorted_insertionSort entryLeJ L
  have hndl : ((List.insertionSort entryLeJ L).map Prod.fst).Nodup := by
    have hp : ((List.insertionSort entryLeJ L).map Prod.fst).Perm (L.map Prod.fst) :=
      (List.perm_insertionSort entryLeJ L).map Prod.fst
    exact hp.nodup_iff.mpr hnd
  have hne : (List.insertionSort entryLeJ L).Pairwise
      (fun a b : String × Json => a.1 ≠ b.1) :=
    List.pairwise_map.mp hndl
  refine (hsorted.and hne).imp ?_
  rintro a b ⟨hle, hne2⟩
  cases h3 : unitsLt (utf16Of a.1) (utf16Of b.1) with
  | true => exact h3
  | false => exact absurd (strLt_antisymm h3 hle) hne2

/-- C5 (amended): `canonicalize` serializes a mapping as a brace-wrapped,
comma-joined list of `"key":value` pairs whose order is a strictly
ascending permutation of the entries in UTF-16 code-unit key order — the
order of JavaScript's `Object.keys(data).sort()` — independently of
insertion order, with the separators and braces leaving no room for
whitespace.  This amends the claim's "code-point order", which the source
does not implement: the two orders disagree on supplementary-plane keys
(see the counterexample).  The `Nodup` hypothesis records that JavaScript
objects cannot carry duplicate keys. -/
theorem claim5_canonObjSorted (kvs : JObj) (hnd : (kvs.toList.map Prod.fst).Nodup) :
    (∃ l : List (String × Json), l.Perm kvs.toList ∧ l.Pairwise entryLtJ ∧
      canonicalize (.obj kvs) = "\x7b" ++ String.intercalate ","
        (l.map (fun kv => jsonQuote kv.1 ++ ":" ++ canonicalize kv.2)) ++ "\x7d") ∧
    ∀ kvs2 : JObj, kvs2.toList.Perm kvs.toList →
      canonicalize (.obj kvs2) = canonicalize (.obj kvs) := by
  obtain ⟨hperm, hpair⟩ := sortedEntries_spec kvs.toList hnd
  constructor
  · exact ⟨_, hperm, hpair, canonicalize_obj_eq kvs⟩
  · intro kvs2 hp2
    have hnd2 : (kvs2.toList.map Prod.fst).Nodup := ((hp2.map Prod.fst).nodup_iff).mpr hnd
    obtain ⟨hperm2, hpair2⟩ := sortedEntries_spec kvs2.toList hnd2
    have hsameSorted : List.insertionSort entryLeJ kvs2.toList =
        List.insertionSort entryLeJ kvs.toList :=
      List.eq_of_perm_of_sorted (hperm2.trans (hp2.trans hperm.symm)) hpair2 hpair
    rw [canonicalize_obj_eq, canonicalize_obj_eq, hsameSorted]

/-- Witness for C5 on a concrete three-entry object in non-ascending
insertion order. -/
theorem claim5_witness :
    (∃ l : List (String × Json), l.Perm c5kvs.toList ∧ l.Pairwise entryLtJ ∧
      canonicalize (.obj c5kvs) = "\x7b" ++ String.intercalate ","
        (l.map (fun kv => jsonQuote kv.1 ++ ":" ++ canonicalize kv.2)) ++ "\x7d") ∧
    ∀ kvs2 : JObj, kvs2.toList.Perm c5kvs.toList →
      canonicalize (.obj kvs2) = canonicalize (.obj c5kvs) :=
  claim5_canonObjSorted c5kvs (by decide)

/-- Counterexample to C5 as stated: the key "！" (U+FF01, one code unit
FF01) precedes "😀" (U+1F600, code units D83D DE00) in code-point order,
yet `canonicalize` — like `Object.keys().sort()`, which compares UTF-16
code units — emits the "😀" entry first, so the output's keys are not in
ascending code-point order. -/
theorem claim5_counterexample :
    codePointLt "！" "😀" = true ∧
    canonicalize (.obj (.cons "！" (.num 1) (.cons "😀" (.num 2) .nil))) =
      "\x7b" ++ jsonQuote "😀" ++ ":2," ++ jsonQuote "！" ++ ":1" ++ "\x7d" ∧
    canonicalize (.obj (.cons "！" (.num 1) (.cons "😀" (.num 2) .nil))) ≠
      "\x7b" ++ jsonQuote "！" ++ ":1," ++ jsonQuote "😀" ++ ":2" ++ "\x7d" := by
  refine ⟨by decide, by decide, by decide⟩

/-- C6: values that are structurally equal up to object key order (equal
recursively-key-sorted normal forms) canonicalize identically; object key
order is irrelevant while array element order is significant. -/
theorem claim6_canonDeterminism :
    (∀ v1 v2 : Json, normalizeJson v1 = normalizeJson v2 →
      canonicalize v1 = canonicalize v2) ∧
    canonicalize (.obj (.cons "a" (.num 1) (.cons "b" (.num 2) .nil))) =
      canonicalize (.obj (.cons "b" (.num 2) (.cons "a" (.num 1) .nil))) ∧
    canonicalize (.arr (.cons (.num 1) (.cons (.num 2) .nil))) ≠
      canonicalize (.arr (.cons (.num 2) (.cons (.num 1) .nil))) := by
  refine ⟨fun v1 v2 h => ?_, by decide, by decide⟩
  rw [← canon_normalize v1, ← canon_normalize v2, h]

/-- Witness for C6 on values whose nested objects differ in key order. -/
theorem claim6_witness : canonicalize c6a = canonicalize c6b :=
  claim6_canonDeterminism.1 c6a c6b (by decide)

/-- C7: the reducer leaves the caller's profile untouched.  On the
heap-level embedding, whenever the profile at `a` reads back as `j` before
`buildSignInputHeap` runs (deep copy, then mutation of the copy's
`metadata`), it still reads back as exactly `j` in the resulting store. -/
theorem claim7_reducerFrame (s : Store) (fr fc a : Nat) (j : Json) (s2 : Store) (c : String)
    (hread : readValue s fr a = some j)
    (hrun : buildSignInputHeap s fc a = some (s2, c)) :
    readValue s2 fr a = some j := by
  unfold buildSignInputHeap at hrun
  cases hdc : deepCopy s fc a with
  | none =>
    rw [hdc] at hrun
    exact Option.noConfusion hrun
  | some pr =>
    obtain ⟨s1, copyA⟩ := pr
    rw [hdc] at hrun
    have hrun2 : (match readValue (installMeta s1 copyA) fc copyA with
      | some j2 => some (installMeta s1 copyA, canonicalize j2)
      | none => none) = some (s2, c) := hrun
    obtain ⟨⟨ext, hext⟩, hcA⟩ := deepCopy_spec s fc a s1 copyA hdc
    have hagree := installMeta_agree s s1 copyA ext hext hcA
    cases hrv : readValue (installMeta s1 copyA) fc copyA with
    | none =>
      rw [hrv] at hrun2
      exact Option.noConfusion hrun2
    | some j2 =>
      rw [hrv] at hrun2
      simp only [Option.some.injEq, Prod.mk.injEq] at hrun2
      rw [← hrun2.1]
      exact readValue_agree s (installMeta s1 copyA) hagree fr a j hread

/-- Witness for C7 on a concrete two-level heap profile. -/
theorem claim7_witness : readValue c7out 8 3 = some c7json :=
  claim7_reducerFrame c7store 8 12 3 c7json c7out c7canon (by decide) (by decide)

/-- C8: when the private key hex decodes to anything but exactly 32 bytes,
`signProfile` fails with the source's invalid-key-length error and never
returns a signature. -/
theorem claim8_invalidKeyLength (S : SigScheme) (profile : JObj) (priv : String)
    (h : (hexDecodeStr priv).length ≠ 32) :
    signProfile S profile priv =
      .error "privateKey must be 64 hex chars (32-byte seed)" := by
  show (if (hexDecodeStr priv).length ≠ 32 then
      Except.error "privateKey must be 64 hex chars (32-byte seed)"
    else Except.ok (bytesToHex (S.sign (buildSignInput profile) (hexDecodeStr priv)))) = _
  rw [if_pos h]

/-- Witness for C8 with a 62-hex-char (31-byte) private key. -/
theorem claim8_witness :
    (hexDecodeStr c8priv).length = 31 ∧
    signProfile toyScheme JObj.nil c8priv =
      .error "privateKey must be 64 hex chars (32-byte seed)" :=
  ⟨by decide, claim8_invalidKeyLength toyScheme JObj.nil c8priv (by decide)⟩

/-- C9: a falsy (e.g. empty-string) `metadata.signature` or
`metadata.public_key` makes `verifyProfile` return `false` at the truthiness
gate.  The statement holds for every signature scheme with no assumptions,
which is exactly what "without attempting any decoding or cryptographic
verification" means in the value-level model. -/
theorem claim9_truthyGate (S : SigScheme) (profile meta : JObj)
    (hmeta : profile.lookup "metadata" = some (.obj meta))
    (h : truthy (meta.lookup "signature") = false ∨
         truthy (meta.lookup "public_key") = false) :
    verifyProfile S profile = false :=
  verifyProfile_falseGate S profile meta hmeta h

/-- Witness for C9: a present but empty signature string. -/
theorem claim9_witness : verifyProfile toyScheme c9profile = false :=
  claim9_truthyGate toyScheme c9profile
    (.cons "public_key" (.str "aa") (.cons "signature" (.str "") .nil))
    (by decide) (Or.inl (by decide))

/-- C10: with `metadata` absent (or `public_key` absent or null), the
reducer installs `metadata = { public_key: "" }`, and `signProfile` with a
valid 32-byte key still returns a signature. -/
theorem claim10_missingMetadata (S : SigScheme) (profile : JObj)
    (h : profile.lookup "metadata" = none ∨
      ∃ meta, profile.lookup "metadata" = some (.obj meta) ∧
        (meta.lookup "public_key" = none ∨ meta.lookup "public_key" = some .null)) :
    buildSignInput profile =
      canonicalize (.obj (profile.setKey "metadata"
        (.obj (.cons "public_key" (.str "") .nil)))) ∧
    ∀ priv, (hexDecodeStr priv).length = 32 →
      ∃ sig, signProfile S profile priv = .ok sig := by
  have hmpk : metaPublicKey profile = .str "" := by
    unfold metaPublicKey
    rcases h with h | ⟨meta, hm, hpk⟩
    · rw [h]
    · rw [hm]
      show (match meta.lookup "public_key" with
          | some .null => Json.str ""
          | some v => v
          | none => .str "") = .str ""
      rcases hpk with hpk | hpk <;> rw [hpk]
  constructor
  · unfold buildSignInput
    rw [hmpk]
  · intro priv hlen
    exact ⟨_, signProfile_ok S profile priv hlen⟩

/-- Witness for C10: a profile with no metadata still signs. -/
theorem claim10_witness :
    ∃ sig, signProfile toyScheme c10profile kp1.privateKey = .ok sig :=
  (claim10_missingMetadata toyScheme c10profile (Or.inl (by decide))).2
    kp1.privateKey (by decide)

/-- C1 (amended): the round trip verifies provided the profile's
`metadata.public_key` already equals the keypair's public key when
`signProfile` runs — the order the CLI uses.  Signing first and only then
writing the public key, as the claim literally states, changes the canonical
signing input between signing and verification (see the counterexample). -/
theorem claim1_roundTrip (S : SigScheme) (hS : SigOk S) (profile meta : JObj)
    (seed : List Nat) (hmeta : profile.lookup "metadata" = some (.obj meta))
    (hpk : meta.lookup "public_key" = some (.str (generateKeypair S seed).publicKey))
    (hlen : seed.length = 32) (hbytes : ∀ b ∈ seed, b < 256) :
    ∃ sigHex, signProfile S profile (generateKeypair S seed).privateKey = .ok sigHex ∧
      verifyProfile S (profile.setKey "metadata"
        (.obj (meta.setKey "signature" (.str sigHex)))) = true := by
  have hseed : hexDecodeStr (generateKeypair S seed).privateKey = seed :=
    hexDecodeStr_bytesToHex seed hbytes
  have hok := signProfile_ok S profile (generateKeypair S seed).privateKey
    (by rw [hseed]; exact hlen)
  rw [hseed] at hok
  refine ⟨bytesToHex (S.sign (buildSignInput profile) seed), hok, ?_⟩
  have hmeta2 : (profile.setKey "metadata"
      (.obj (meta.setKey "signature"
        (.str (bytesToHex (S.sign (buildSignInput profile) seed)))))).lookup "metadata" =
      some (.obj (meta.setKey "signature"
        (.str (bytesToHex (S.sign (buildSignInput profile) seed))))) :=
    JObj.lookup_setKey_self profile _ _
  have hsig2 := JObj.lookup_setKey_self meta "signature"
    (.str (bytesToHex (S.sign (buildSignInput profile) seed)))
  have hpk2 : (meta.setKey "signature"
      (.str (bytesToHex (S.sign (buildSignInput profile) seed)))).lookup "public_key" =
      some (.str (generateKeypair S seed).publicKey) := by
    rw [JObj.lookup_setKey_ne meta "signature" "public_key" _ (by decide), hpk]
  have hpub_ne : (generateKeypair S seed).publicKey ≠ "" := by
    show bytesToHex (S.derivePub seed) ≠ ""
    apply bytesToHex_ne
    intro hnil
    have hl := hS.pub_len seed hlen
    rw [hnil] at hl
    exact absurd hl.symm (by decide)
  have hsig_ne : bytesToHex (S.sign (buildSignInput profile) seed) ≠ "" :=
    bytesToHex_ne _ (hS.sign_ne _ _)
  rw [verifyProfile_pos S _ _ (generateKeypair S seed).publicKey
    (bytesToHex (S.sign (buildSignInput profile) seed)) hmeta2 hpk2 hsig2 hpub_ne hsig_ne]
  have hpubdec : hexDecodeStr (generateKeypair S seed).publicKey = S.derivePub seed :=
    hexDecodeStr_bytesToHex _ (hS.pub_bytes seed hbytes)
  rw [hpubdec, if_pos (hS.pub_len seed hlen),
    hexDecodeStr_bytesToHex _ (hS.sign_bytes _ seed hbytes),
    buildSignInput_update profile meta _ hmeta
      (by rw [JObj.lookup_setKey_ne meta "signature" "public_key" _ (by decide)])]
  exact hS.complete _ seed

/-- Witness for C1 on a concrete profile that already carries the witness
keypair's public key. -/
theorem claim1_witness :
    ∃ sigHex, signProfile toyScheme c2pre
        (generateKeypair toyScheme seedOnes).privateKey = .ok sigHex ∧
      verifyProfile toyScheme (c2pre.setKey "metadata"
        (.obj (c2meta0.setKey "signature" (.str sigHex)))) = true :=
  claim1_roundTrip toyScheme toySigOk c2pre c2meta0 seedOnes (by decide) (by decide)
    (by decide) (by decide)

/-- Counterexample to C1 as stated: starting from a profile whose metadata
does not yet carry the public key, signing first and writing
`metadata.public_key` and `metadata.signature` afterwards makes
`verifyProfile` return `false`, because the verifier recomputes the signing
input over the newly written public key. -/
theorem claim1_counterexample :
    signProfile toyScheme c1base kp1.privateKey = .ok c1sigHex ∧
    verifyProfile toyScheme c1claimProfile = false := by
  constructor
  · rfl
  · decide

/-- C2 (amended): after signing, any mutation that changes the canonical
signing input — in particular any mutation outside `metadata` — makes
`verifyProfile` return `false`, provided the stored signature and public key
are carried over.  Mutations of `metadata` fields other than `public_key`
are stripped by the reducer and are not detected (see the counterexample). -/
theorem claim2_tamperDetection (S : SigScheme) (hS : SigOk S) (pOrig pMut metaM : JObj)
    (seed : List Nat) (hbytes : ∀ b ∈ seed, b < 256)
    (hmeta : pMut.lookup "metadata" = some (.obj metaM))
    (hsig : metaM.lookup "signature" =
      some (.str (bytesToHex (S.sign (buildSignInput pOrig) seed))))
    (hpk : metaM.lookup "public_key" = some (.str (bytesToHex (S.derivePub seed))))
    (hdiff : buildSignInput pMut ≠ buildSignInput pOrig) :
    verifyProfile S pMut = false := by
  rw [verifyProfile_eq_of_meta S pMut metaM hmeta, hpk, hsig]
  by_cases ht :
      truthy (some (Json.str (bytesToHex (S.sign (buildSignInput pOrig) seed)))) = false ∨
      truthy (some (Json.str (bytesToHex (S.derivePub seed)))) = false
  · rw [if_pos ht]
  · rw [if_neg ht]
    show (if (hexDecodeStr (bytesToHex (S.derivePub seed))).length = 32 then
        S.verify (buildSignInput pMut) (hexDecodeStr (bytesToHex (S.derivePub seed)))
          (hexDecodeStr (bytesToHex (S.sign (buildSignInput pOrig) seed)))
      else false) = false
    rw [hexDecodeStr_bytesToHex _ (hS.pub_bytes seed hbytes),
      hexDecodeStr_bytesToHex _ (hS.sign_bytes _ seed hbytes)]
    by_cases hl : (S.derivePub seed).length = 32
    · rw [if_pos hl]
      exact hS.tamper (buildSignInput pOrig) (buildSignInput pMut) seed (Ne.symm hdiff)
    · rw [if_neg hl]

/-- Witness for C2: mutating the top-level `identity` field of the signed
witness profile makes verification fail. -/
theorem claim2_witness : verifyProfile toyScheme c2identMut = false :=
  claim2_tamperDetection toyScheme toySigOk c2signed c2identMut c2metaFull seedOnes
    (by decide) (by decide) (by decide) (by decide) (by decide)

/-- Counterexample to C2 as stated: mutating `metadata.alias` — a field
other than `metadata.signature` and `metadata.public_key` — after signing
leaves `verifyProfile` returning `true`, not `false`, because the reducer
strips all metadata fields except `public_key` before signing. -/
theorem claim2_counterexample :
    verifyProfile toyScheme c2signed = true ∧
    verifyProfile toyScheme c2aliasMut = true := by
  constructor
  · decide
  · decide

/-- C3 (amended): profiles identical except for metadata fields other than
`public_key` produce identical signing input and identical `signProfile`
output; `verifyProfile` agrees as well provided the `signature` entries also
agree — the verifier does read `metadata.signature`, so two profiles
differing in it can verify differently (see the counterexample). -/
theorem claim3_metadataExclusion (base m1 m2 : JObj)
    (hpk : m1.lookup "public_key" = m2.lookup "public_key") :
    buildSignInput (base.setKey "metadata" (.obj m1)) =
      buildSignInput (base.setKey "metadata" (.obj m2)) ∧
    (∀ S priv, signProfile S (base.setKey "metadata" (.obj m1)) priv =
      signProfile S (base.setKey "metadata" (.obj m2)) priv) ∧
    (m1.lookup "signature" = m2.lookup "signature" →
      ∀ S, verifyProfile S (base.setKey "metadata" (.obj m1)) =
        verifyProfile S (base.setKey "metadata" (.obj m2))) := by
  have hbsi := buildSignInput_eq_setMeta base m1 m2 hpk
  refine ⟨hbsi, fun S priv => ?_, fun hsig S => ?_⟩
  · unfold signProfile
    rw [hbsi]
  · rw [verifyProfile_eq_of_meta S _ m1 (JObj.lookup_setKey_self base _ _),
      verifyProfile_eq_of_meta S _ m2 (JObj.lookup_setKey_self base _ _),
      hpk, hsig, hbsi]

/-- Witness for C3 on metadata objects differing in `alias` and
`entity_id` but not in `public_key` or `signature`. -/
theorem claim3_witness :
    buildSignInput (c3base.setKey "metadata"
        (.obj (.cons "alias" (.str "a") (.cons "public_key" (.str "p") .nil)))) =
      buildSignInput (c3base.setKey "metadata"
        (.obj (.cons "public_key" (.str "p") (.cons "entity_id" (.str "e") .nil)))) ∧
    (∀ S priv, signProfile S (c3base.setKey "metadata"
        (.obj (.cons "alias" (.str "a") (.cons "public_key" (.str "p") .nil)))) priv =
      signProfile S (c3base.setKey "metadata"
        (.obj (.cons "public_key" (.str "p") (.cons "entity_id" (.str "e") .nil)))) priv) ∧
    ((JObj.cons "alias" (.str "a") (.cons "public_key" (.str "p") .nil)).lookup
        "signature" =
      (JObj.cons "public_key" (.str "p")
        (.cons "entity_id" (.str "e") .nil)).lookup "signature" →
      ∀ S, verifyProfile S (c3base.setKey "metadata"
        (.obj (.cons "alias" (.str "a") (.cons "public_key" (.str "p") .nil)))) =
        verifyProfile S (c3base.setKey "metadata"
          (.obj (.cons "public_key" (.str "p")
            (.cons "entity_id" (.str "e") .nil))))) :=
  claim3_metadataExclusion c3base
    (.cons "alias" (.str "a") (.cons "public_key" (.str "p") .nil))
    (.cons "public_key" (.str "p") (.cons "entity_id" (.str "e") .nil)) (by decide)

/-- Counterexample to C3 as stated: two profiles identical except for
`metadata.signature` have the same signing input yet opposite
`verifyProfile` outcomes. -/
theorem claim3_counterexample :
    c3m1.lookup "public_key" = c3m2.lookup "public_key" ∧
    buildSignInput (c3base.setKey "metadata" (.obj c3m1)) =
      buildSignInput (c3base.setKey "metadata" (.obj c3m2)) ∧
    verifyProfile toyScheme (c3base.setKey "metadata" (.obj c3m1)) = true ∧
    verifyProfile toyScheme (c3base.setKey "metadata" (.obj c3m2)) = false := by
  refine ⟨by decide, by decide, by decide, by decide⟩

/-- C4 (amended): `verifyProfile` is a total boolean function that returns
`false` whenever `metadata` is missing or not an object, whenever
`signature` or `public_key` is missing or falsy, whenever a string public
key does not hex-decode to exactly 32 bytes, and whenever a string
signature does not hex-decode to exactly 64 bytes.  Hex decoding follows
Node semantics and silently truncates at the first non-hex pair, so a
string with a full 128-hex-char valid prefix verifies as if the trailing
garbage were absent (see the counterexample) — the claim's "non-hex
signature returns false" is amended accordingly.  No blanket statement is
made about non-string values: Node's `Buffer.from` accepts arrays and
array-likes (the encoding argument is ignored), so such values can carry
valid key or signature bytes. -/
theorem claim4_verifyCollapse (S : SigScheme) (hS : SigLenOk S) :
    (∀ profile : JObj, (∀ meta : JObj, profile.lookup "metadata" ≠ some (.obj meta)) →
      verifyProfile S profile = false) ∧
    (∀ profile meta : JObj, profile.lookup "metadata" = some (.obj meta) →
      ((truthy (meta.lookup "signature") = false ∨
        truthy (meta.lookup "public_key") = false) →
        verifyProfile S profile = false) ∧
      (∀ pkHex sigHex, meta.lookup "public_key" = some (.str pkHex) →
        meta.lookup "signature" = some (.str sigHex) →
        ((hexDecodeStr pkHex).length ≠ 32 → verifyProfile S profile = false) ∧
        ((hexDecodeStr sigHex).length ≠ 64 → verifyProfile S profile = false))) := by
  refine ⟨verifyProfile_nonobj S, fun profile meta hmeta =>
    ⟨verifyProfile_falseGate S profile meta hmeta, ?_⟩⟩
  · intro pkHex sigHex hp hs
    constructor
    · intro hl
      rw [verifyProfile_eq_of_meta S profile meta hmeta, hp, hs]
      by_cases ht : truthy (some (Json.str sigHex)) = false ∨
          truthy (some (Json.str pkHex)) = false
      · rw [if_pos ht]
      · rw [if_neg ht]
        show (if (hexDecodeStr pkHex).length = 32 then
            S.verify (buildSignInput profile) (hexDecodeStr pkHex) (hexDecodeStr sigHex)
          else false) = false
        rw [if_neg hl]
    · intro hl
      rw [verifyProfile_eq_of_meta S profile meta hmeta, hp, hs]
      by_cases ht : truthy (some (Json.str sigHex)) = false ∨
          truthy (some (Json.str pkHex)) = false
      · rw [if_pos ht]
      · rw [if_neg ht]
        show (if (hexDecodeStr pkHex).length = 32 then
            S.verify (buildSignInput profile) (hexDecodeStr pkHex) (hexDecodeStr sigHex)
          else false) = false
        by_cases hpl : (hexDecodeStr pkHex).length = 32
        · rw [if_pos hpl]
          exact hS _ _ _ hl
        · rw [if_neg hpl]

/-- Witness for C4, instantiated on the executable scheme with 64-byte
signatures. -/
theorem claim4_witness :
    (∀ profile : JObj, (∀ meta : JObj, profile.lookup "metadata" ≠ some (.obj meta)) →
      verifyProfile toyScheme64 profile = false) ∧
    (∀ profile meta : JObj, profile.lookup "metadata" = some (.obj meta) →
      ((truthy (meta.lookup "signature") = false ∨
        truthy (meta.lookup "public_key") = false) →
        verifyProfile toyScheme64 profile = false) ∧
      (∀ pkHex sigHex, meta.lookup "public_key" = some (.str pkHex) →
        meta.lookup "signature" = some (.str sigHex) →
        ((hexDecodeStr pkHex).length ≠ 32 → verifyProfile toyScheme64 profile = false) ∧
        ((hexDecodeStr sigHex).length ≠ 64 →
          verifyProfile toyScheme64 profile = false))) :=
  claim4_verifyCollapse toyScheme64 toy64SigLen

/-- Counterexample to C4 as stated: `c4sigBad` is not a hex string (it ends
in `zz`), yet `verifyProfile` returns `true` on the profile carrying it,
because Node hex decoding truncates at the first invalid pair and the valid
128-character prefix is the correct signature. -/
theorem claim4_counterexample :
    (c4sigBad.data.all (fun ch => (hexVal ch).isSome)) = false ∧
    verifyProfile toyScheme64 c4profile = true := by
  constructor
  · decide
  · decide
